import Mathlib

/-!
Verification of the payment-engine ledger core: a shallow embedding of
`src/types.rs` and `src/payment_engine.rs`.

Modelling conventions:
* Monetary amounts (`f64` in the source) are modelled as exact rationals `ℚ`;
  the spec describes amounts as exact signed decimal quantities and every
  claim is about the exact ledger algebra, not about rounding.
* `u16` client ids and `u32` transaction ids are modelled as `Nat`; the code
  only ever compares ids for equality, so width plays no role.
* Rust `HashMap` is modelled as an association list with overwrite-on-insert
  (`Table`); the claims only observe maps through lookup, and `HashMap`
  iteration order is irrelevant to them.
-/

/-- Association-list model of `std::collections::HashMap` keyed by `Nat`. -/
abbrev Table (β : Type) : Type := List (Nat × β)

namespace Table

/-- Model of `HashMap::get` (and `contains_key` via `isSome`). -/
def find? {β : Type} : Table β → Nat → Option β
  | [], _ => none
  | (k', v) :: t, k => if k' = k then some v else find? t k

/-- Model of `HashMap::insert` (overwrites an existing binding for the key). -/
def insert {β : Type} : Table β → Nat → β → Table β
  | [], k, v => [(k, v)]
  | (k', v') :: t, k, v => if k' = k then (k, v) :: t else (k', v') :: insert t k v

end Table

/-- Enum `TransactionType` from `src/types.rs`. -/
inductive TransactionType where
  | Deposit
  | Withdrawal
  | Dispute
  | Resolve
  | Chargeback
deriving DecidableEq

/-- Record `Transaction` from `src/types.rs` (the field `r#type` is rendered `kind`). -/
structure Transaction where
  kind : TransactionType
  client : Nat
  tx : Nat
  amount : Option ℚ
deriving DecidableEq

/-- Record `Client` from `src/types.rs`. -/
structure Client where
  available : ℚ
  held : ℚ
  total : ℚ
  locked : Bool
deriving DecidableEq

/-- Constructor `Client::new`: all fields zero / unlocked. -/
def Client.new : Client :=
  { available := 0, held := 0, total := 0, locked := false }

/-- State `PaymentEngine`: the Client Directory and the two Ledger Store tables. -/
structure PaymentEngine where
  clients : Table Client
  transactions : Table Transaction
  disputed_transactions : Table Transaction
deriving DecidableEq

namespace PaymentEngine

/-- Constructor `PaymentEngine::new`. -/
def new : PaymentEngine :=
  { clients := [], transactions := [], disputed_transactions := [] }

/-- Model of `HashMap::entry(k).or_insert(Client::new())`: returns the map (extended
with a fresh default account when the key was absent) together with the entry's value. -/
def entryOrInsertNew (m : Table Client) (c : Nat) : Table Client × Client :=
  match Table.find? m c with
  | some client => (m, client)
  | none => (Table.insert m c Client.new, Client.new)

/-- Handler `process_deposit` from `src/payment_engine.rs` (lines 43-53). -/
def process_deposit (s : PaymentEngine) (txn : Transaction) : PaymentEngine :=
  let p := entryOrInsertNew s.clients txn.client
  let client := p.2
  if !client.locked then
    let client' :=
      match txn.amount with
      | some amount =>
          { client with
              available := client.available + amount
              total := client.total + amount }
      | none => client
    { s with
        clients := Table.insert p.1 txn.client client'
        transactions := Table.insert s.transactions txn.tx txn }
  else
    { s with
        clients := p.1 }

/-- Handler `process_withdrawal` from `src/payment_engine.rs` (lines 55-69). -/
def process_withdrawal (s : PaymentEngine) (txn : Transaction) : PaymentEngine :=
  match Table.find? s.clients txn.client with
  | none => s
  | some client =>
    if !client.locked then
      match txn.amount with
      | none => s
      | some amount =>
        if client.available ≥ amount then
          { s with
              clients := Table.insert s.clients txn.client
                { client with
                    available := client.available - amount
                    total := client.total - amount }
              transactions := Table.insert s.transactions txn.tx txn }
        else s
    else s

/-- Handler `process_dispute` from `src/payment_engine.rs` (lines 71-84). -/
def process_dispute (s : PaymentEngine) (txn : Transaction) : PaymentEngine :=
  match Table.find? s.transactions txn.tx with
  | none => s
  | some original_txn =>
    if original_txn.client = txn.client then
      let clients' :=
        match Table.find? s.clients original_txn.client with
        | none => s.clients
        | some client =>
          match original_txn.amount with
          | none => s.clients
          | some amount =>
            Table.insert s.clients original_txn.client
              { client with
                  available := client.available - amount
                  held := client.held + amount }
      { s with
          clients := clients'
          disputed_transactions := Table.insert s.disputed_transactions txn.tx txn }
    else s

/-- Handler `process_resolve` from `src/payment_engine.rs` (lines 86-100). -/
def process_resolve (s : PaymentEngine) (txn : Transaction) : PaymentEngine :=
  if (Table.find? s.disputed_transactions txn.tx).isSome then
    match Table.find? s.transactions txn.tx with
    | none => s
    | some original_txn =>
      if original_txn.client = txn.client then
        match Table.find? s.clients original_txn.client with
        | none => s
        | some client =>
          match original_txn.amount with
          | none => s
          | some amount =>
            { s with
                clients := Table.insert s.clients original_txn.client
                  { client with
                      available := client.available + amount
                      held := client.held - amount } }
      else s
  else s

/-- Handler `process_chargeback` from `src/payment_engine.rs` (lines 102-121): subtract
the amount from `total`, clamp `available`/`total` to zero when either is
negative, then subtract from `held` and lock the account. -/
def process_chargeback (s : PaymentEngine) (txn : Transaction) : PaymentEngine :=
  if (Table.find? s.disputed_transactions txn.tx).isSome then
    match Table.find? s.transactions txn.tx with
    | none => s
    | some original_txn =>
      if original_txn.client = txn.client then
        match Table.find? s.clients original_txn.client with
        | none => s
        | some client =>
          match original_txn.amount with
          | none => s
          | some amount =>
            let total₁ := client.total - amount
            { s with
                clients := Table.insert s.clients original_txn.client
                  { available := if client.available < 0 ∨ total₁ < 0 then 0 else client.available
                    total := if client.available < 0 ∨ total₁ < 0 then 0 else total₁
                    held := client.held - amount
                    locked := true } }
      else s
  else s

/-- Dispatcher `process_transaction`: routes on the transaction kind. -/
def process_transaction (s : PaymentEngine) (txn : Transaction) : PaymentEngine :=
  match txn.kind with
  | .Deposit => process_deposit s txn
  | .Withdrawal => process_withdrawal s txn
  | .Dispute => process_dispute s txn
  | .Resolve => process_resolve s txn
  | .Chargeback => process_chargeback s txn

/-- Process a finite stream of transactions in order, starting from `s`. -/
def processAll : PaymentEngine → List Transaction → PaymentEngine
  | s, [] => s
  | s, t :: ts => processAll (process_transaction s t) ts

end PaymentEngine

namespace PaymentEngine

/-- True exactly when processing `txn` on state `s` executes the defensive
zero-clamp branch of `process_chargeback` (the one place that may break the
`total = available + held` invariant). The branch structure mirrors
`process_chargeback` line by line. -/
def clampFires (s : PaymentEngine) (txn : Transaction) : Bool :=
  match txn.kind with
  | .Chargeback =>
    if (Table.find? s.disputed_transactions txn.tx).isSome then
      match Table.find? s.transactions txn.tx with
      | none => false
      | some original_txn =>
        if original_txn.client = txn.client then
          match Table.find? s.clients original_txn.client with
          | none => false
          | some client =>
            match original_txn.amount with
            | none => false
            | some amount => decide (client.available < 0 ∨ client.total - amount < 0)
        else false
    else false
  | _ => false

/-- True when no transaction of the stream `l`, processed in order from `s`,
fires the defensive chargeback clamp. -/
def noClamp : PaymentEngine → List Transaction → Bool
  | _, [] => true
  | s, t :: ts => !clampFires s t && noClamp (process_transaction s t) ts

/-- The global ledger invariant: every account in the Client Directory
satisfies `total = available + held`. -/
def Inv (s : PaymentEngine) : Prop :=
  ∀ c client, Table.find? s.clients c = some client →
    client.total = client.available + client.held

end PaymentEngine

namespace Table

theorem find?_insert {β : Type} (m : Table β) (k : Nat) (v : β) (k' : Nat) :
    find? (insert m k v) k' = if k = k' then some v else find? m k' := by
  induction m with
  | nil => simp [insert, find?]
  | cons hd tl ih =>
    obtain ⟨k₀, v₀⟩ := hd
    by_cases h₀ : k₀ = k
    · subst h₀
      by_cases h₁ : k₀ = k'
      · subst h₁; simp [insert, find?]
      · have h₂ : ¬ k₀ = k' := h₁
        simp [insert, find?, h₁, h₂]
    · by_cases h₁ : k₀ = k'
      · subst h₁
        have h₂ : ¬ k = k₀ := fun h => h₀ h.symm
        simp [insert, find?, h₀, h₂]
      · simp [insert, find?, h₀, h₁, ih]

theorem find?_insert_self {β : Type} (m : Table β) (k : Nat) (v : β) :
    find? (insert m k v) k = some v := by
  simp [find?_insert]

theorem find?_insert_ne {β : Type} (m : Table β) (k : Nat) (v : β) (k' : Nat)
    (h : k ≠ k') : find? (insert m k v) k' = find? m k' := by
  simp [find?_insert, h]

theorem insert_self {β : Type} {m : Table β} {k : Nat} {v : β}
    (h : find? m k = some v) : insert m k v = m := by
  induction m with
  | nil => simp [find?] at h
  | cons hd tl ih =>
    obtain ⟨k₀, v₀⟩ := hd
    by_cases h₀ : k₀ = k
    · subst h₀
      simp [find?] at h
      simp [insert, h]
    · simp [find?, h₀] at h
      simp [insert, h₀, ih h]

theorem forall_of_forall_insert {β : Type} {P : β → Prop} {m : Table β} {k : Nat} {v : β}
    (hm : ∀ c w, find? m c = some w → P w) (hv : P v) :
    ∀ c w, find? (insert m k v) c = some w → P w := by
  intro c w h
  rw [find?_insert] at h
  by_cases hkc : k = c
  · simp [hkc] at h
    exact h ▸ hv
  · exact hm c w (by simpa [hkc] using h)

theorem insert_insert {β : Type} (m : Table β) (k : Nat) (v w : β) :
    insert (insert m k v) k w = insert m k w := by
  induction m with
  | nil => simp [insert]
  | cons hd tl ih =>
    obtain ⟨k₀, v₀⟩ := hd
    by_cases h : k₀ = k <;> simp [insert, h, ih]

end Table

namespace PaymentEngine

/-- C7: For every Deposit record with amount `a > 0`: if the client's account is
locked, processing changes no state; otherwise `available` and `total` each
increase by exactly `a`, `held` and `locked` are unchanged (a missing account is
created first with all fields zero), and the record is stored in the
transactions table under its `tx_id`. -/
theorem deposit_positive_spec (s : PaymentEngine) (c tx : Nat) (a : ℚ) (_hpos : 0 < a) :
    (∀ client, Table.find? s.clients c = some client → client.locked = true →
      process_transaction s ⟨.Deposit, c, tx, some a⟩ = s)
    ∧ (∀ client, Table.find? s.clients c = some client → client.locked = false →
      process_transaction s ⟨.Deposit, c, tx, some a⟩ =
        { s with
            clients := Table.insert s.clients c
              { client with available := client.available + a, total := client.total + a }
            transactions := Table.insert s.transactions tx ⟨.Deposit, c, tx, some a⟩ })
    ∧ (Table.find? s.clients c = none →
      process_transaction s ⟨.Deposit, c, tx, some a⟩ =
        { s with
            clients := Table.insert s.clients c ⟨a, 0, a, false⟩
            transactions := Table.insert s.transactions tx ⟨.Deposit, c, tx, some a⟩ }) := by
  refine ⟨?_, ?_, ?_⟩
  · intro client hcl hl
    simp [process_transaction, process_deposit, entryOrInsertNew, hcl, hl]
  · intro client hcl hl
    simp [process_transaction, process_deposit, entryOrInsertNew, hcl, hl]
  · intro hcl
    simp [process_transaction, process_deposit, entryOrInsertNew, hcl, Client.new,
      Table.insert_insert]

/-- Witness for `deposit_positive_spec`: depositing 5 for a fresh client creates
the account with `available = total = 5`. -/
theorem deposit_positive_spec_witness :
    process_transaction PaymentEngine.new ⟨.Deposit, 1, 1, some 5⟩ =
      { clients := [(1, ⟨5, 0, 5, false⟩)]
        transactions := [(1, ⟨.Deposit, 1, 1, some 5⟩)]
        disputed_transactions := [] } := by
  have h := (deposit_positive_spec PaymentEngine.new 1 1 5 (by decide)).2.2 (by decide)
  rw [h]; decide

/-- C5: For every Withdrawal record carrying an amount `a`, the withdrawal is
applied (`available` and `total` each decrease by exactly `a`, and the record is
stored under its `tx_id`) exactly when the account exists, is unlocked, and has
`available ≥ a`; otherwise the whole state is unchanged and no account is
created. -/
theorem withdrawal_spec (s : PaymentEngine) (c tx : Nat) (a : ℚ) :
    (∀ client, Table.find? s.clients c = some client → client.locked = false →
        a ≤ client.available →
      process_transaction s ⟨.Withdrawal, c, tx, some a⟩ =
        { s with
            clients := Table.insert s.clients c
              { client with available := client.available - a, total := client.total - a }
            transactions := Table.insert s.transactions tx ⟨.Withdrawal, c, tx, some a⟩ })
    ∧ (Table.find? s.clients c = none →
      process_transaction s ⟨.Withdrawal, c, tx, some a⟩ = s)
    ∧ (∀ client, Table.find? s.clients c = some client →
        client.locked = true ∨ client.available < a →
      process_transaction s ⟨.Withdrawal, c, tx, some a⟩ = s) := by
  refine ⟨?_, ?_, ?_⟩
  · intro client hcl hl hge
    simp [process_transaction, process_withdrawal, hcl, hl, hge]
  · intro hcl
    simp [process_transaction, process_withdrawal, hcl]
  · intro client hcl h
    rcases h with hl | hlt
    · simp [process_transaction, process_withdrawal, hcl, hl]
    · rcases hlock : client.locked with _ | _
      · simp [process_transaction, process_withdrawal, hcl, hlock, not_le_of_lt hlt]
      · simp [process_transaction, process_withdrawal, hcl, hlock]

/-- Witness for `withdrawal_spec`: withdrawing 4 from a client holding 10
leaves 6, and the record is stored; withdrawing from a missing client is a
no-op. -/
theorem withdrawal_spec_witness :
    process_transaction ⟨[(1, ⟨10, 0, 10, false⟩)], [], []⟩ ⟨.Withdrawal, 1, 4, some 4⟩ =
      { clients := [(1, ⟨6, 0, 6, false⟩)]
        transactions := [(4, ⟨.Withdrawal, 1, 4, some 4⟩)]
        disputed_transactions := [] } := by
  have h := (withdrawal_spec ⟨[(1, ⟨10, 0, 10, false⟩)], [], []⟩ 1 4 4).1
    ⟨10, 0, 10, false⟩ (by decide) (by decide) (by norm_num)
  rw [h]; norm_num [Table.insert]

/-- C6 counterexample: a Deposit with an absent amount is not a complete no-op
(the record is stored and the account is created), and a Deposit with a
negative amount is applied arithmetically rather than ignored. -/
theorem deposit_nonpositive_counterexample :
    process_transaction PaymentEngine.new ⟨.Deposit, 1, 7, none⟩ ≠ PaymentEngine.new
    ∧ Table.find? (process_transaction PaymentEngine.new ⟨.Deposit, 1, 7, none⟩).transactions 7
        = some ⟨.Deposit, 1, 7, none⟩
    ∧ Table.find? (process_transaction PaymentEngine.new ⟨.Deposit, 2, 8, some (-3)⟩).clients 2
        = some ⟨-3, 0, -3, false⟩ := by
  refine ⟨by decide, by decide, ?_⟩
  norm_num [process_transaction, process_deposit, entryOrInsertNew, PaymentEngine.new,
    Client.new, Table.find?, Table.insert]

/-- C6 amended: a Deposit whose amount is absent or non-positive is NOT a no-op.
If the account is locked nothing changes; otherwise the record is stored in the
transactions table under its `tx_id`, a missing account is created, and the
account's `available` and `total` change by the amount when one is present (so
a non-positive amount is applied arithmetically, and an absent amount leaves
the balance fields unchanged). -/
theorem deposit_nonpositive_amended (s : PaymentEngine) (c tx : Nat) (amt : Option ℚ)
    (_hnp : amt = none ∨ ∃ a, amt = some a ∧ a ≤ 0) :
    (∀ client, Table.find? s.clients c = some client → client.locked = true →
      process_transaction s ⟨.Deposit, c, tx, amt⟩ = s)
    ∧ (∀ client, Table.find? s.clients c = some client → client.locked = false →
      process_transaction s ⟨.Deposit, c, tx, amt⟩ =
        { s with
            clients := Table.insert s.clients c
              { client with
                  available := client.available + amt.getD 0
                  total := client.total + amt.getD 0 }
            transactions := Table.insert s.transactions tx ⟨.Deposit, c, tx, amt⟩ })
    ∧ (Table.find? s.clients c = none →
      process_transaction s ⟨.Deposit, c, tx, amt⟩ =
        { s with
            clients := Table.insert s.clients c ⟨amt.getD 0, 0, amt.getD 0, false⟩
            transactions := Table.insert s.transactions tx ⟨.Deposit, c, tx, amt⟩ }) := by
  refine ⟨?_, ?_, ?_⟩
  · intro client hcl hl
    cases amt <;> simp [process_transaction, process_deposit, entryOrInsertNew, hcl, hl]
  · intro client hcl hl
    obtain ⟨av, he, tot, lk⟩ := client
    simp only at hl
    subst hl
    cases amt <;>
      simp [process_transaction, process_deposit, entryOrInsertNew, hcl]
  · intro hcl
    cases amt <;>
      simp [process_transaction, process_deposit, entryOrInsertNew, hcl, Client.new,
        Table.insert_insert]

/-- Witness for `deposit_nonpositive_amended`: a deposit of -3 for a fresh
client is applied, leaving `available = total = -3`, and the record is stored. -/
theorem deposit_nonpositive_amended_witness :
    process_transaction PaymentEngine.new ⟨.Deposit, 2, 8, some (-3)⟩ =
      { clients := [(2, ⟨-3, 0, -3, false⟩)]
        transactions := [(8, ⟨.Deposit, 2, 8, some (-3)⟩)]
        disputed_transactions := [] } := by
  have h := (deposit_nonpositive_amended PaymentEngine.new 2 8 (some (-3))
    (Or.inr ⟨-3, rfl, by norm_num⟩)).2.2 (by decide)
  rw [h]; decide

/-- C4: A Dispute whose `tx_id` is unknown, or whose `client_id` differs from
the stored record's, changes no state; otherwise, when the stored record
carries amount `a` and the account exists, processing moves `a` from
`available` to `held` (`total` and `locked` unchanged) and registers the
`tx_id` in the disputed table — with no lock check and no floor on
`available`. -/
theorem dispute_spec (s : PaymentEngine) (c tx : Nat) (damt : Option ℚ) :
    (Table.find? s.transactions tx = none →
      process_transaction s ⟨.Dispute, c, tx, damt⟩ = s)
    ∧ (∀ orig, Table.find? s.transactions tx = some orig → orig.client ≠ c →
      process_transaction s ⟨.Dispute, c, tx, damt⟩ = s)
    ∧ (∀ orig client a, Table.find? s.transactions tx = some orig → orig.client = c →
        Table.find? s.clients c = some client → orig.amount = some a →
      process_transaction s ⟨.Dispute, c, tx, damt⟩ =
        { s with
            clients := Table.insert s.clients c
              { client with available := client.available - a, held := client.held + a }
            disputed_transactions :=
              Table.insert s.disputed_transactions tx ⟨.Dispute, c, tx, damt⟩ }) := by
  refine ⟨?_, ?_, ?_⟩
  · intro hs
    simp [process_transaction, process_dispute, hs]
  · intro orig hs hc
    simp [process_transaction, process_dispute, hs, hc]
  · intro orig client a hs hc hcl ha
    subst hc
    simp [process_transaction, process_dispute, hs, hcl, ha]

/-- Witness for `dispute_spec`: disputing a stored deposit of 4 on a locked
account with zero balance drives `available` to -4 and `held` to 4. -/
theorem dispute_spec_witness :
    process_transaction
        ⟨[(1, ⟨0, 0, 0, true⟩)], [(5, ⟨.Deposit, 1, 5, some 4⟩)], []⟩
        ⟨.Dispute, 1, 5, none⟩ =
      { clients := [(1, ⟨-4, 4, 0, true⟩)]
        transactions := [(5, ⟨.Deposit, 1, 5, some 4⟩)]
        disputed_transactions := [(5, ⟨.Dispute, 1, 5, none⟩)] } := by
  have h := (dispute_spec ⟨[(1, ⟨0, 0, 0, true⟩)], [(5, ⟨.Deposit, 1, 5, some 4⟩)], []⟩
    1 5 none).2.2 ⟨.Deposit, 1, 5, some 4⟩ ⟨0, 0, 0, true⟩ 4 (by decide) (by decide)
    (by decide) (by decide)
  rw [h]; norm_num [Table.insert]

/-- C3: A Resolve whose `tx_id` has no open dispute is a no-op; a Resolve whose
`tx_id` is disputed and whose `client_id` matches the stored record carrying
amount `a` adds `a` to `available` and subtracts `a` from `held`, leaves the
disputed table untouched, and therefore a second identical Resolve immediately
afterwards credits `available` and debits `held` a second time. -/
theorem resolve_spec (s : PaymentEngine) (c tx : Nat) (ramt : Option ℚ)
    (orig : Transaction) (client : Client) (a : ℚ)
    (hd : (Table.find? s.disputed_transactions tx).isSome = true)
    (hs : Table.find? s.transactions tx = some orig)
    (hc : orig.client = c)
    (hcl : Table.find? s.clients c = some client)
    (ha : orig.amount = some a) :
    (∀ s' : PaymentEngine, Table.find? s'.disputed_transactions tx = none →
      process_transaction s' ⟨.Resolve, c, tx, ramt⟩ = s')
    ∧ process_transaction s ⟨.Resolve, c, tx, ramt⟩ =
        { s with
            clients := Table.insert s.clients c
              { client with available := client.available + a, held := client.held - a } }
    ∧ processAll s [⟨.Resolve, c, tx, ramt⟩, ⟨.Resolve, c, tx, ramt⟩] =
        { s with
            clients := Table.insert s.clients c
              { client with
                  available := client.available + a + a
                  held := client.held - a - a } } := by
  subst hc
  have h1 : process_transaction s ⟨.Resolve, orig.client, tx, ramt⟩ =
      { s with
          clients := Table.insert s.clients orig.client
            { client with available := client.available + a, held := client.held - a } } := by
    simp [process_transaction, process_resolve, hd, hs, hcl, ha]
  refine ⟨?_, h1, ?_⟩
  · intro s' hd'
    simp [process_transaction, process_resolve, hd']
  · simp only [processAll]
    rw [h1]
    simp [process_transaction, process_resolve, hd, hs, ha,
      Table.find?_insert_self, Table.insert_insert]

/-- Witness for `resolve_spec`: with a 2-unit deposit under open dispute,
two identical resolves leave `available = 4` and `held = -2` (double credit). -/
theorem resolve_spec_witness :
    processAll
        ⟨[(2, ⟨0, 2, 2, false⟩)], [(2, ⟨.Deposit, 2, 2, some 2⟩)],
         [(2, ⟨.Dispute, 2, 2, none⟩)]⟩
        [⟨.Resolve, 2, 2, none⟩, ⟨.Resolve, 2, 2, none⟩] =
      { clients := [(2, ⟨4, -2, 2, false⟩)]
        transactions := [(2, ⟨.Deposit, 2, 2, some 2⟩)]
        disputed_transactions := [(2, ⟨.Dispute, 2, 2, none⟩)] } := by
  have h := (resolve_spec
    ⟨[(2, ⟨0, 2, 2, false⟩)], [(2, ⟨.Deposit, 2, 2, some 2⟩)],
     [(2, ⟨.Dispute, 2, 2, none⟩)]⟩ 2 2 none ⟨.Deposit, 2, 2, some 2⟩ ⟨0, 2, 2, false⟩ 2
    (by decide) (by decide) (by decide) (by decide) (by decide)).2.2
  rw [h]; norm_num [Table.insert]

/-- C2: A Chargeback with no open dispute on its `tx_id`, or whose `client_id`
does not match the stored record, changes no state. Otherwise, with stored
amount `a`: `total` decreases by `a`; then, before `held` is touched, if
`available < 0` or the new `total < 0` both `available` and `total` are forced
to exactly 0; then `held` decreases by `a` and the account is locked — so a
clamping chargeback can leave `total ≠ available + held`. -/
theorem chargeback_spec (s : PaymentEngine) (c tx : Nat) (bamt : Option ℚ) :
    (Table.find? s.disputed_transactions tx = none →
      process_transaction s ⟨.Chargeback, c, tx, bamt⟩ = s)
    ∧ (∀ orig, Table.find? s.transactions tx = some orig → orig.client ≠ c →
      process_transaction s ⟨.Chargeback, c, tx, bamt⟩ = s)
    ∧ (∀ orig client a, (Table.find? s.disputed_transactions tx).isSome = true →
        Table.find? s.transactions tx = some orig → orig.client = c →
        Table.find? s.clients c = some client → orig.amount = some a →
      process_transaction s ⟨.Chargeback, c, tx, bamt⟩ =
        { s with
            clients := Table.insert s.clients c
              { available := if client.available < 0 ∨ client.total - a < 0 then 0
                             else client.available
                total := if client.available < 0 ∨ client.total - a < 0 then 0
                         else client.total - a
                held := client.held - a
                locked := true } }) := by
  refine ⟨?_, ?_, ?_⟩
  · intro hd
    simp [process_transaction, process_chargeback, hd]
  · intro orig hs hc
    cases hd : Table.find? s.disputed_transactions tx <;>
      simp [process_transaction, process_chargeback, hd, hs, hc]
  · intro orig client a hd hs hc hcl ha
    subst hc
    simp [process_transaction, process_chargeback, hd, hs, hcl, ha]

/-- Witness for `chargeback_spec`: a clamping chargeback (`available = -1`) on a
stored 5-unit deposit zeroes `available`/`total`, leaves `held = 2`, locks the
account, and the result violates `total = available + held`. -/
theorem chargeback_spec_witness :
    process_transaction
        ⟨[(1, ⟨-1, 7, 6, false⟩)], [(9, ⟨.Deposit, 1, 9, some 5⟩)],
         [(9, ⟨.Dispute, 1, 9, none⟩)]⟩
        ⟨.Chargeback, 1, 9, none⟩ =
      { clients := [(1, ⟨0, 2, 0, true⟩)]
        transactions := [(9, ⟨.Deposit, 1, 9, some 5⟩)]
        disputed_transactions := [(9, ⟨.Dispute, 1, 9, none⟩)] }
    ∧ (⟨0, 2, 0, true⟩ : Client).total ≠
        (⟨0, 2, 0, true⟩ : Client).available + (⟨0, 2, 0, true⟩ : Client).held := by
  constructor
  · have h := (chargeback_spec
      ⟨[(1, ⟨-1, 7, 6, false⟩)], [(9, ⟨.Deposit, 1, 9, some 5⟩)],
       [(9, ⟨.Dispute, 1, 9, none⟩)]⟩ 1 9 none).2.2
      ⟨.Deposit, 1, 9, some 5⟩ ⟨-1, 7, 6, false⟩ 5
      (by decide) (by decide) (by decide) (by decide) (by decide)
    rw [h]; norm_num [Table.insert]
  · norm_num

/-- C10: A Chargeback is not blocked by the `locked` flag: on an already-locked
account with an open dispute it applies the same mutation again (subtract from
`total`, clamp, subtract from `held`, keep locked), and the `tx_id` stays in
the disputed table afterwards. Concretely, a second chargeback after
deposit-dispute-chargeback drives `held` to -5 < 0. -/
theorem chargeback_ignores_lock (s : PaymentEngine) (c tx : Nat) (bamt : Option ℚ)
    (orig : Transaction) (client : Client) (a : ℚ)
    (hd : (Table.find? s.disputed_transactions tx).isSome = true)
    (hs : Table.find? s.transactions tx = some orig)
    (hc : orig.client = c)
    (hcl : Table.find? s.clients c = some client)
    (_hlock : client.locked = true)
    (ha : orig.amount = some a) :
    process_transaction s ⟨.Chargeback, c, tx, bamt⟩ =
      { s with
          clients := Table.insert s.clients c
            { available := if client.available < 0 ∨ client.total - a < 0 then 0
                           else client.available
              total := if client.available < 0 ∨ client.total - a < 0 then 0
                       else client.total - a
              held := client.held - a
              locked := true } }
    ∧ (Table.find?
        (process_transaction s ⟨.Chargeback, c, tx, bamt⟩).disputed_transactions
        tx).isSome = true
    ∧ Table.find? (processAll PaymentEngine.new
        [⟨.Deposit, 1, 9, some 5⟩, ⟨.Dispute, 1, 9, none⟩,
         ⟨.Chargeback, 1, 9, none⟩, ⟨.Chargeback, 1, 9, none⟩]).clients 1
        = some ⟨0, -5, 0, true⟩
    ∧ (⟨0, -5, 0, true⟩ : Client).held < 0 := by
  subst hc
  have h1 : process_transaction s ⟨.Chargeback, orig.client, tx, bamt⟩ =
      { s with
          clients := Table.insert s.clients orig.client
            { available := if client.available < 0 ∨ client.total - a < 0 then 0
                           else client.available
              total := if client.available < 0 ∨ client.total - a < 0 then 0
                       else client.total - a
              held := client.held - a
              locked := true } } := by
    simp [process_transaction, process_chargeback, hd, hs, hcl, ha]
  refine ⟨h1, ?_, ?_, by norm_num⟩
  · rw [h1]
    simpa using hd
  · norm_num [processAll, process_transaction, process_deposit, process_dispute,
      process_chargeback, entryOrInsertNew, Client.new, PaymentEngine.new,
      Table.find?, Table.insert]

/-- Witness for `chargeback_ignores_lock`: applied to the locked, fully
charged-back account (all balances zero), a second chargeback of the same
5-unit deposit leaves `held = -5`. -/
theorem chargeback_ignores_lock_witness :
    process_transaction
        ⟨[(1, ⟨0, 0, 0, true⟩)], [(9, ⟨.Deposit, 1, 9, some 5⟩)],
         [(9, ⟨.Dispute, 1, 9, none⟩)]⟩
        ⟨.Chargeback, 1, 9, none⟩ =
      { clients := [(1, ⟨0, -5, 0, true⟩)]
        transactions := [(9, ⟨.Deposit, 1, 9, some 5⟩)]
        disputed_transactions := [(9, ⟨.Dispute, 1, 9, none⟩)] } := by
  have h := (chargeback_ignores_lock
    ⟨[(1, ⟨0, 0, 0, true⟩)], [(9, ⟨.Deposit, 1, 9, some 5⟩)],
     [(9, ⟨.Dispute, 1, 9, none⟩)]⟩ 1 9 none ⟨.Deposit, 1, 9, some 5⟩ ⟨0, 0, 0, true⟩ 5
    (by decide) (by decide) (by decide) (by decide) (by decide) (by decide)).1
  rw [h]; norm_num [Table.insert]

/-- C8: For a stored transaction with amount `a` and matching client, a Dispute
followed immediately by a Resolve on the same `tx_id` restores the account
(including `available` and `held`) to exactly its pre-dispute value; `total` is
unchanged throughout (the intermediate state only moves `a` from `available`
to `held`). -/
theorem dispute_resolve_roundtrip (s : PaymentEngine) (c tx : Nat)
    (orig : Transaction) (client : Client) (a : ℚ)
    (hs : Table.find? s.transactions tx = some orig)
    (hc : orig.client = c)
    (ha : orig.amount = some a)
    (hcl : Table.find? s.clients c = some client) :
    Table.find? (process_transaction s ⟨.Dispute, c, tx, none⟩).clients c =
      some { client with available := client.available - a, held := client.held + a }
    ∧ Table.find? (processAll s [⟨.Dispute, c, tx, none⟩, ⟨.Resolve, c, tx, none⟩]).clients c
      = some client := by
  subst hc
  have h1 : process_transaction s ⟨.Dispute, orig.client, tx, none⟩ =
      { s with
          clients := Table.insert s.clients orig.client
            { client with available := client.available - a, held := client.held + a }
          disputed_transactions :=
            Table.insert s.disputed_transactions tx ⟨.Dispute, orig.client, tx, none⟩ } := by
    simp [process_transaction, process_dispute, hs, hcl, ha]
  have hres : ({ client with
      available := client.available - a + a, held := client.held + a - a } : Client)
      = client := by
    obtain ⟨av, he, tot, lk⟩ := client
    simp only [Client.mk.injEq]
    refine ⟨by ring, by ring, trivial, trivial⟩
  constructor
  · rw [h1]
    simp [Table.find?_insert_self]
  · simp only [processAll]
    rw [h1]
    simp [process_transaction, process_resolve, hs, ha,
      Table.find?_insert_self, Table.insert_insert, hres]

/-- Witness for `dispute_resolve_roundtrip`: dispute then resolve of a stored
2-unit deposit moves 2 into `held` and then restores the account exactly. -/
theorem dispute_resolve_roundtrip_witness :
    Table.find? (process_transaction
        ⟨[(2, ⟨2, 0, 2, false⟩)], [(2, ⟨.Deposit, 2, 2, some 2⟩)], []⟩
        ⟨.Dispute, 2, 2, none⟩).clients 2 = some ⟨0, 2, 2, false⟩
    ∧ Table.find? (processAll
        ⟨[(2, ⟨2, 0, 2, false⟩)], [(2, ⟨.Deposit, 2, 2, some 2⟩)], []⟩
        [⟨.Dispute, 2, 2, none⟩, ⟨.Resolve, 2, 2, none⟩]).clients 2
      = some ⟨2, 0, 2, false⟩ := by
  have h := dispute_resolve_roundtrip
    ⟨[(2, ⟨2, 0, 2, false⟩)], [(2, ⟨.Deposit, 2, 2, some 2⟩)], []⟩ 2 2
    ⟨.Deposit, 2, 2, some 2⟩ ⟨2, 0, 2, false⟩ 2
    (by decide) (by decide) (by decide) (by decide)
  refine ⟨?_, ?_⟩
  · rw [h.1]; norm_num
  · rw [h.2]

/-- C9: Duplicate disputes are not rejected: for a stored transaction with
amount `a` and matching client, `n` repeated Disputes on the same `tx_id`
subtract `n·a` from `available` and add `n·a` to `held` (each one re-inserting
the `tx_id` into the disputed table). -/
theorem repeated_dispute_spec (s : PaymentEngine) (c tx : Nat)
    (orig : Transaction) (client : Client) (a : ℚ) (n : ℕ)
    (hs : Table.find? s.transactions tx = some orig)
    (hc : orig.client = c)
    (ha : orig.amount = some a)
    (hcl : Table.find? s.clients c = some client) :
    Table.find? (processAll s (List.replicate n ⟨.Dispute, c, tx, none⟩)).clients c =
      some { client with
               available := client.available - (n : ℚ) * a
               held := client.held + (n : ℚ) * a }
    ∧ (1 ≤ n →
      Table.find?
        (processAll s (List.replicate n ⟨.Dispute, c, tx, none⟩)).disputed_transactions tx
        = some ⟨.Dispute, c, tx, none⟩) := by
  subst hc
  induction n generalizing s client hs hcl with
  | zero =>
    constructor
    · simpa [processAll] using hcl
    · intro h
      exact absurd h (by norm_num)
  | succ n ih =>
    have h1 : process_transaction s ⟨.Dispute, orig.client, tx, none⟩ =
        { s with
            clients := Table.insert s.clients orig.client
              { client with available := client.available - a, held := client.held + a }
            disputed_transactions :=
              Table.insert s.disputed_transactions tx ⟨.Dispute, orig.client, tx, none⟩ } := by
      simp [process_transaction, process_dispute, hs, hcl, ha]
    have key := ih
      { s with
          clients := Table.insert s.clients orig.client
            { client with available := client.available - a, held := client.held + a }
          disputed_transactions :=
            Table.insert s.disputed_transactions tx ⟨.Dispute, orig.client, tx, none⟩ }
      { client with available := client.available - a, held := client.held + a }
      hs (by simp [Table.find?_insert_self])
    rw [List.replicate_succ]
    simp only [processAll]
    rw [h1]
    constructor
    · rw [key.1]
      obtain ⟨av, he, tot, lk⟩ := client
      simp only [Client.mk.injEq, Option.some.injEq]
      push_cast
      refine ⟨by ring, by ring, trivial, trivial⟩
    · intro _
      rcases n with _ | m
      · simpa [processAll] using Table.find?_insert_self s.disputed_transactions tx
          ⟨.Dispute, orig.client, tx, none⟩
      · exact key.2 (by omega)

/-- Witness for `repeated_dispute_spec`: three duplicate disputes of a stored
2-unit deposit leave `available = -4` and `held = 6` starting from
`available = 2`. -/
theorem repeated_dispute_spec_witness :
    Table.find? (processAll
        ⟨[(2, ⟨2, 0, 2, false⟩)], [(2, ⟨.Deposit, 2, 2, some 2⟩)], []⟩
        (List.replicate 3 ⟨.Dispute, 2, 2, none⟩)).clients 2
      = some ⟨-4, 6, 2, false⟩
    ∧ Table.find? (processAll
        ⟨[(2, ⟨2, 0, 2, false⟩)], [(2, ⟨.Deposit, 2, 2, some 2⟩)], []⟩
        (List.replicate 3 ⟨.Dispute, 2, 2, none⟩)).disputed_transactions 2
      = some ⟨.Dispute, 2, 2, none⟩ := by
  have h := repeated_dispute_spec
    ⟨[(2, ⟨2, 0, 2, false⟩)], [(2, ⟨.Deposit, 2, 2, some 2⟩)], []⟩ 2 2
    ⟨.Deposit, 2, 2, some 2⟩ ⟨2, 0, 2, false⟩ 2 3
    (by decide) (by decide) (by decide) (by decide)
  refine ⟨?_, h.2 (by norm_num)⟩
  rw [h.1]; norm_num

/-- Helper: inserting a client that satisfies the balance equation preserves it
for every lookup. -/
theorem inv_insert_client {m : Table Client}
    (hm : ∀ c cl, Table.find? m c = some cl → cl.total = cl.available + cl.held)
    {v : Client} (hv : v.total = v.available + v.held) (k : Nat) :
    ∀ c cl, Table.find? (Table.insert m k v) c = some cl →
      cl.total = cl.available + cl.held :=
  Table.forall_of_forall_insert hm hv

/-- Helper: one dispatcher step that does not fire the chargeback clamp
preserves the global balance invariant. -/
theorem inv_step (s : PaymentEngine) (txn : Transaction)
    (hInv : Inv s) (hnc : clampFires s txn = false) :
    Inv (process_transaction s txn) := by
  obtain ⟨kind, c, tx, amt⟩ := txn
  cases kind with
  | Deposit =>
    cases hcl : Table.find? s.clients c with
    | none =>
      cases amt with
      | none =>
        simp [process_transaction, process_deposit, entryOrInsertNew, hcl, Client.new]
        intro c' cl' h
        exact inv_insert_client (inv_insert_client hInv (by norm_num) c) (by norm_num)
          c c' cl' h
      | some a =>
        simp [process_transaction, process_deposit, entryOrInsertNew, hcl, Client.new]
        intro c' cl' h
        exact inv_insert_client (inv_insert_client hInv (by norm_num) c) (by ring) c c' cl' h
    | some client =>
      cases hl : client.locked with
      | true =>
        simp [process_transaction, process_deposit, entryOrInsertNew, hcl, hl]
        exact hInv
      | false =>
        cases amt with
        | none =>
          simp [process_transaction, process_deposit, entryOrInsertNew, hcl, hl]
          intro c' cl' h
          exact inv_insert_client hInv (hInv c client hcl) c c' cl' h
        | some a =>
          simp [process_transaction, process_deposit, entryOrInsertNew, hcl, hl]
          intro c' cl' h
          refine inv_insert_client hInv ?_ c c' cl' h
          have h0 := hInv c client hcl
          show client.total + a = client.available + a + client.held
          linarith
  | Withdrawal =>
    cases hcl : Table.find? s.clients c with
    | none => simpa [process_transaction, process_withdrawal, hcl] using hInv
    | some client =>
      cases hl : client.locked with
      | true => simpa [process_transaction, process_withdrawal, hcl, hl] using hInv
      | false =>
        cases amt with
        | none => simpa [process_transaction, process_withdrawal, hcl, hl] using hInv
        | some a =>
          by_cases hge : client.available ≥ a
          · simp [process_transaction, process_withdrawal, hcl, hl, hge]
            intro c' cl' h
            refine inv_insert_client hInv ?_ c c' cl' h
            have h0 := hInv c client hcl
            show client.total - a = client.available - a + client.held
            linarith
          · simpa [process_transaction, process_withdrawal, hcl, hl, hge] using hInv
  | Dispute =>
    cases hs : Table.find? s.transactions tx with
    | none => simpa [process_transaction, process_dispute, hs] using hInv
    | some orig =>
      by_cases hc : orig.client = c
      · cases hcl : Table.find? s.clients c with
        | none => simpa [process_transaction, process_dispute, hs, hc, hcl] using hInv
        | some client =>
          cases hamt : orig.amount with
          | none => simpa [process_transaction, process_dispute, hs, hc, hcl, hamt] using hInv
          | some a =>
            simp [process_transaction, process_dispute, hs, hc, hcl, hamt]
            intro c' cl' h
            refine inv_insert_client hInv ?_ c c' cl' h
            have h0 := hInv c client hcl
            show client.total = client.available - a + (client.held + a)
            linarith
      · simpa [process_transaction, process_dispute, hs, hc] using hInv
  | Resolve =>
    cases hd : Table.find? s.disputed_transactions tx with
    | none => simpa [process_transaction, process_resolve, hd] using hInv
    | some d =>
      cases hs : Table.find? s.transactions tx with
      | none => simpa [process_transaction, process_resolve, hd, hs] using hInv
      | some orig =>
        by_cases hc : orig.client = c
        · cases hcl : Table.find? s.clients c with
          | none => simpa [process_transaction, process_resolve, hd, hs, hc, hcl] using hInv
          | some client =>
            cases hamt : orig.amount with
            | none =>
              simpa [process_transaction, process_resolve, hd, hs, hc, hcl, hamt] using hInv
            | some a =>
              simp [process_transaction, process_resolve, hd, hs, hc, hcl, hamt]
              intro c' cl' h
              refine inv_insert_client hInv ?_ c c' cl' h
              have h0 := hInv c client hcl
              show client.total = client.available + a + (client.held - a)
              linarith
        · simpa [process_transaction, process_resolve, hd, hs, hc] using hInv
  | Chargeback =>
    cases hd : Table.find? s.disputed_transactions tx with
    | none => simpa [process_transaction, process_chargeback, hd] using hInv
    | some d =>
      cases hs : Table.find? s.transactions tx with
      | none => simpa [process_transaction, process_chargeback, hd, hs] using hInv
      | some orig =>
        by_cases hc : orig.client = c
        · cases hcl : Table.find? s.clients c with
          | none => simpa [process_transaction, process_chargeback, hd, hs, hc, hcl] using hInv
          | some client =>
            cases hamt : orig.amount with
            | none =>
              simpa [process_transaction, process_chargeback, hd, hs, hc, hcl, hamt] using hInv
            | some a =>
              simp only [clampFires, hd, hs, hc, hcl, hamt, Option.isSome_some, if_true,
                if_pos, decide_eq_false_iff_not] at hnc
              rw [not_or] at hnc
              have hna : ¬ client.available < 0 := hnc.1
              have hnt : ¬ client.total - a < 0 := hnc.2
              have hnt' : ¬ client.total < a := by
                rw [not_lt] at hnt ⊢
                linarith
              simp [process_transaction, process_chargeback, hd, hs, hc, hcl, hamt,
                hna, hnt, hnt']
              intro c' cl' h
              refine inv_insert_client hInv ?_ c c' cl' h
              have h0 := hInv c client hcl
              show client.total - a = client.available + (client.held - a)
              linarith
        · simpa [process_transaction, process_chargeback, hd, hs, hc] using hInv

/-- Helper: processing a whole stream with no clamping chargeback preserves the
global balance invariant. -/
theorem inv_processAll (s : PaymentEngine) (l : List Transaction)
    (hInv : Inv s) (hnc : noClamp s l = true) : Inv (processAll s l) := by
  induction l generalizing s with
  | nil => exact hInv
  | cons t ts ih =>
    rw [noClamp, Bool.and_eq_true, Bool.not_eq_true'] at hnc
    rw [processAll]
    exact ih (process_transaction s t) (inv_step s t hInv hnc.1) hnc.2

/-- C1: In every state reached by processing a finite transaction stream in
which no chargeback fires the defensive clamp, every account in the Client
Directory satisfies `total = available + held` (a fresh engine holds it
vacuously, each new account starts all-zero, and every non-clamping step
preserves it). -/
theorem ledger_invariant_no_clamp (l : List Transaction)
    (hnc : noClamp PaymentEngine.new l = true) :
    Inv (processAll PaymentEngine.new l) := by
  refine inv_processAll PaymentEngine.new l ?_ hnc
  intro c client h
  simp [PaymentEngine.new, Table.find?] at h

/-- Witness for `ledger_invariant_no_clamp` on the reference scenario: deposits,
withdrawals, a resolved dispute, and a non-clamping chargeback. -/
theorem ledger_invariant_no_clamp_witness :
    noClamp PaymentEngine.new
      [⟨.Deposit, 1, 1, some 1⟩, ⟨.Deposit, 2, 2, some 2⟩, ⟨.Deposit, 1, 3, some 2⟩,
       ⟨.Withdrawal, 1, 4, some (3/2)⟩, ⟨.Withdrawal, 2, 5, some 3⟩,
       ⟨.Dispute, 1, 3, none⟩, ⟨.Resolve, 1, 3, none⟩,
       ⟨.Dispute, 2, 2, none⟩, ⟨.Chargeback, 2, 2, none⟩] = true
    ∧ Inv (processAll PaymentEngine.new
      [⟨.Deposit, 1, 1, some 1⟩, ⟨.Deposit, 2, 2, some 2⟩, ⟨.Deposit, 1, 3, some 2⟩,
       ⟨.Withdrawal, 1, 4, some (3/2)⟩, ⟨.Withdrawal, 2, 5, some 3⟩,
       ⟨.Dispute, 1, 3, none⟩, ⟨.Resolve, 1, 3, none⟩,
       ⟨.Dispute, 2, 2, none⟩, ⟨.Chargeback, 2, 2, none⟩]) := by
  have hnc : noClamp PaymentEngine.new
      [⟨.Deposit, 1, 1, some 1⟩, ⟨.Deposit, 2, 2, some 2⟩, ⟨.Deposit, 1, 3, some 2⟩,
       ⟨.Withdrawal, 1, 4, some (3/2)⟩, ⟨.Withdrawal, 2, 5, some 3⟩,
       ⟨.Dispute, 1, 3, none⟩, ⟨.Resolve, 1, 3, none⟩,
       ⟨.Dispute, 2, 2, none⟩, ⟨.Chargeback, 2, 2, none⟩] = true := by
    norm_num [noClamp, clampFires, processAll, process_transaction, process_deposit,
      process_withdrawal, process_dispute, process_resolve, process_chargeback,
      entryOrInsertNew, Client.new, PaymentEngine.new, Table.find?, Table.insert]
  exact ⟨hnc, ledger_invariant_no_clamp _ hnc⟩

end PaymentEngine
